import Mathlib

/-!
Verification of the Code-Gym membership and scheduling rules against their
specification.  The Python source is shallowly embedded: dates are
year/month/day records compared lexicographically like `datetime.date`,
Python strings are lists of characters (ASCII model), Python integers are
unbounded `Int`/`Nat`, and the database rows a handler touches are passed
to the embedded function explicitly.
-/

namespace CodeGym

/-- A calendar date, as Python `datetime.date`: compared lexicographically
by `(year, month, day)`. -/
structure Date where
  year : Int
  month : Nat
  day : Nat
deriving DecidableEq, Repr

/-- Python `calendar.isleap`. -/
def isleap (y : Int) : Bool :=
  y % 4 == 0 && (y % 100 != 0 || y % 400 == 0)

/-- Number of days of month `m` of year `y`, Python
`calendar.monthrange(y, m)[1]` (meaningful for `1 ≤ m ≤ 12`, the only
arguments the source ever passes). -/
def monthrange (y : Int) (m : Nat) : Nat :=
  if m = 2 then (if isleap y then 29 else 28)
  else if m = 4 ∨ m = 6 ∨ m = 9 ∨ m = 11 then 30
  else 31

/-- Python `date` comparison `a <= b`: lexicographic on year, month, day. -/
def dateLe (a b : Date) : Bool :=
  if a.year < b.year then true
  else if b.year < a.year then false
  else if a.month < b.month then true
  else if b.month < a.month then false
  else a.day ≤ b.day

/-- A structurally valid `datetime.date`. -/
def Date.Valid (d : Date) : Prop :=
  1 ≤ d.month ∧ d.month ≤ 12 ∧ 1 ≤ d.day ∧ d.day ≤ monthrange d.year d.month

instance (d : Date) : Decidable d.Valid := by
  unfold Date.Valid
  infer_instance

/-- Source `src/app/blueprints/cashier/__init__.py`, `_add_months`:
`month_index = start_date.month - 1 + months`;
`year = start_date.year + month_index // 12`;
`month = month_index % 12 + 1`;
`day = min(start_date.day, calendar.monthrange(year, month)[1])`.
Python `//` and `%` on the positive divisor `12` are floor division and
nonnegative remainder, which is what `Int` division and modulus compute in
Lean. -/
def _add_months (start_date : Date) (months : Int) : Date :=
  let month_index : Int := (start_date.month : Int) - 1 + months
  let year : Int := start_date.year + month_index / 12
  let month : Nat := (month_index % 12).toNat + 1
  let day : Nat := min start_date.day (monthrange year month)
  ⟨year, month, day⟩

/-- Date-extension step of the `payment` handler in
`src/app/blueprints/cashier/__init__.py`:
`base_date = member.active_until if member.active_until and
member.active_until >= today else today`;
`member.active_until = _add_months(base_date, package.duration_months)`. -/
def paymentNewActiveUntil (active_until : Option Date) (today : Date)
    (duration_months : Int) : Date :=
  let base_date : Date :=
    match active_until with
    | some au => if dateLe today au then au else today
    | none => today
  _add_months base_date duration_months

/-- A sequence of successive `payment` events for one member whose
`active_until` is set: each event carries the day it is processed
(`date.today()`) and the purchased package's `duration_months`, and updates
`active_until` exactly as the `payment` handler does. -/
def runPayments (active_until : Date) : List (Date × Int) → Date
  | [] => active_until
  | e :: rest => runPayments (paymentNewActiveUntil (some active_until) e.1 e.2) rest

/-- Modelled from the spec: the registration flow in
`src/app/blueprints/reception.py` computes
`(registration_date + relativedelta(months=package.duration_months)).date()`
with the third-party `dateutil` library, which is not part of this
repository.  Following the library's documented behaviour for a nonnegative
pure month delta: the month count is normalised into years plus a residual
`0 ≤ r < 12`, those are added to the year and month fields with a single
carry into the year when the month overflows 12, and the day of month is
clamped to the last day of the resulting month. -/
def relativedeltaAddMonths (dt : Date) (months : Int) : Date :=
  let years : Int := months / 12
  let r : Nat := (months % 12).toNat
  let y0 : Int := dt.year + years
  let m0 : Nat := dt.month + r
  let year : Int := if 12 < m0 then y0 + 1 else y0
  let month : Nat := if 12 < m0 then m0 - 12 else m0
  let day : Nat := min (monthrange year month) dt.day
  ⟨year, month, day⟩

/-- Duration validation of `admin.create_package` and
`admin.update_package` in `src/app/blueprints/admin/__init__.py`:
`duration_months = request.form.get("duration_months", type=int)` yields
`None` when the field is missing or unparsable, and the package is rejected
when `not duration_months or duration_months < 1` (Python `not` on an
integer is true exactly at `0`). -/
def packageDurationRejected (duration_months : Option Int) : Bool :=
  match duration_months with
  | none => true
  | some d => d == 0 || d < 1

/-- The anchor date in the words of the spec: `active_until` when it is
present and in the future or equal to `today`, otherwise `today`. -/
def specAnchor (active_until : Option Date) (today : Date) : Date :=
  match active_until with
  | some au => if dateLe today au then au else today
  | none => today

/-- The spec's description of the extension result `r`: the anchor advanced
by `k` calendar months — the linear month index (year times 12 plus
zero-based month) grows by exactly `k` and the resulting month is a real
month — with the day of month clamped to the last valid day of the
resulting month. -/
def advancesByCalendarMonths (anchor r : Date) (k : Int) : Prop :=
  r.year * 12 + ((r.month : Int) - 1) =
      anchor.year * 12 + ((anchor.month : Int) - 1) + k ∧
  1 ≤ r.month ∧ r.month ≤ 12 ∧
  r.day = min anchor.day (monthrange r.year r.month)

instance (anchor r : Date) (k : Int) :
    Decidable (advancesByCalendarMonths anchor r k) := by
  unfold advancesByCalendarMonths
  infer_instance

lemma dateLe_iff (a b : Date) : dateLe a b = true ↔
    (a.year < b.year ∨ (a.year = b.year ∧
      (a.month < b.month ∨ (a.month = b.month ∧ a.day ≤ b.day)))) := by
  unfold dateLe
  repeat' split
  all_goals simp
  all_goals omega

lemma dateLe_refl (a : Date) : dateLe a a = true := by
  rw [dateLe_iff]
  omega

lemma dateLe_trans {a b c : Date} (h1 : dateLe a b = true)
    (h2 : dateLe b c = true) : dateLe a c = true := by
  rw [dateLe_iff] at *
  omega

lemma dateLe_of_not_dateLe {a b : Date} (h : ¬ dateLe a b = true) :
    dateLe b a = true := by
  rw [dateLe_iff] at *
  omega

lemma le_add_months (x : Date) (d : Int) (hd : 1 ≤ d) :
    dateLe x (_add_months x d) = true := by
  rw [dateLe_iff]
  simp only [_add_months]
  omega

lemma payment_step_mono (old today : Date) (d : Int) (hd : 1 ≤ d) :
    dateLe old (paymentNewActiveUntil (some old) today d) = true := by
  unfold paymentNewActiveUntil
  by_cases h : dateLe today old = true
  · simp only [h, if_true]
    exact le_add_months old d hd
  · simp only [h, if_false]
    exact dateLe_trans (dateLe_of_not_dateLe h) (le_add_months today d hd)

lemma runPayments_mono (start : Date) (events : List (Date × Int))
    (h : ∀ e ∈ events, 1 ≤ e.2) :
    dateLe start (runPayments start events) = true := by
  induction events generalizing start with
  | nil => exact dateLe_refl start
  | cons e rest ih =>
    have step := payment_step_mono start e.1 e.2 (h e (by simp))
    have tail := ih (paymentNewActiveUntil (some start) e.1 e.2)
      (fun x hx => h x (by simp [hx]))
    exact dateLe_trans step tail

lemma runPayments_append_one (start : Date) (events : List (Date × Int))
    (e : Date × Int) :
    runPayments start (events ++ [e]) =
      paymentNewActiveUntil (some (runPayments start events)) e.1 e.2 := by
  induction events generalizing start with
  | nil => rfl
  | cons f rest ih =>
    simp only [List.cons_append, runPayments]
    exact ih _

/-- C1: for every `duration_months ≥ 1`, optional current `active_until`
and current day, the `payment` handler's new `active_until` equals the
anchor date (the current `active_until` when present and not before today,
otherwise today) advanced by `duration_months` calendar months with the day
of month clamped to the last valid day of the resulting month. -/
theorem membership_extension_postcondition (active_until : Option Date)
    (today : Date) (duration_months : Int) (_hd : 1 ≤ duration_months) :
    advancesByCalendarMonths (specAnchor active_until today)
      (paymentNewActiveUntil active_until today duration_months)
      duration_months := by
  unfold advancesByCalendarMonths specAnchor paymentNewActiveUntil
  cases active_until with
  | none =>
    simp only [_add_months]
    refine ⟨by omega, by omega, by omega, trivial⟩
  | some au =>
    by_cases h : dateLe today au = true
    · simp only [h, if_true, _add_months]
      refine ⟨by omega, by omega, by omega, trivial⟩
    · simp only [h, if_false, _add_months]
      refine ⟨by omega, by omega, by omega, trivial⟩

theorem membership_extension_postcondition_witness :
    (1 : Int) ≤ 1 ∧
      advancesByCalendarMonths
        (specAnchor (some ⟨2024, 1, 31⟩) ⟨2024, 1, 10⟩)
        (paymentNewActiveUntil (some ⟨2024, 1, 31⟩) ⟨2024, 1, 10⟩ 1) 1 :=
  ⟨by decide,
   membership_extension_postcondition (some ⟨2024, 1, 31⟩) ⟨2024, 1, 10⟩ 1
     (by decide)⟩

/-- C5: once set, `active_until` is monotonically non-decreasing across
successive `payment` extensions with `duration_months ≥ 1` — the value
after any sequence of extensions is at least the starting value, and each
further payment never rolls the date back. -/
theorem active_until_monotone (start : Date) (events : List (Date × Int))
    (h : ∀ e ∈ events, 1 ≤ e.2) :
    dateLe start (runPayments start events) = true ∧
    ∀ (today : Date) (d : Int), 1 ≤ d →
      dateLe (runPayments start events)
        (runPayments start (events ++ [(today, d)])) = true := by
  refine ⟨runPayments_mono start events h, ?_⟩
  intro today d hd
  rw [runPayments_append_one]
  exact payment_step_mono _ today d hd

theorem active_until_monotone_witness :
    dateLe ⟨2024, 1, 31⟩
        (runPayments ⟨2024, 1, 31⟩ [(⟨2024, 2, 1⟩, 1)]) = true ∧
      dateLe (runPayments ⟨2024, 1, 31⟩ [(⟨2024, 2, 1⟩, 1)])
        (runPayments ⟨2024, 1, 31⟩
          ([(⟨2024, 2, 1⟩, 1)] ++ [(⟨2024, 6, 15⟩, 2)])) = true :=
  ⟨(active_until_monotone ⟨2024, 1, 31⟩ [(⟨2024, 2, 1⟩, 1)] (by decide)).1,
   (active_until_monotone ⟨2024, 1, 31⟩ [(⟨2024, 2, 1⟩, 1)] (by decide)).2
     ⟨2024, 6, 15⟩ 2 (by decide)⟩

/-- C6 counterexample: at `duration_months = 0 < 1` the extension
computation does not fail — it returns a date (the anchor unchanged). -/
theorem extension_total_counterexample :
    paymentNewActiveUntil none ⟨2024, 1, 15⟩ 0 = ⟨2024, 1, 15⟩ := by decide

/-- C6 (amended): the extension computation itself performs no duration
check — for a valid anchor, duration `0` returns the anchor unchanged
rather than failing — and the `duration_months ≥ 1` constraint is instead
enforced upstream: package creation and update reject every duration
below 1 (missing, zero or negative). -/
theorem invalid_duration_enforced_upstream (d : Int) (hd : d < 1)
    (x : Date) (hx : x.Valid) :
    packageDurationRejected (some d) = true ∧ _add_months x 0 = x := by
  obtain ⟨h1, h2, h3, h4⟩ := hx
  constructor
  · simp only [packageDurationRejected, Bool.or_eq_true, beq_iff_eq,
      decide_eq_true_eq]
    omega
  · cases x with
    | mk y m dd =>
      simp only [_add_months, Date.mk.injEq]
      have hy : y + ((m : Int) - 1 + 0) / 12 = y := by
        simp only at h1 h2
        omega
      have hm : (((m : Int) - 1 + 0) % 12).toNat + 1 = m := by
        simp only at h1 h2
        omega
      refine ⟨hy, hm, ?_⟩
      rw [hy, hm]
      simp only at h4
      exact Nat.min_eq_left h4

theorem invalid_duration_enforced_upstream_witness :
    packageDurationRejected (some 0) = true ∧
      _add_months ⟨2024, 1, 15⟩ 0 = ⟨2024, 1, 15⟩ :=
  invalid_duration_enforced_upstream 0 (by decide) ⟨2024, 1, 15⟩ (by decide)

/-- C7: for every valid start date and every `duration_months ≥ 1`, the
registration flow's library month-arithmetic (`relativedelta`) and the
cashier flow's hand-rolled `_add_months` produce the same date. -/
theorem relativedelta_eq_add_months (start : Date) (hs : start.Valid)
    (n : Int) (_hn : 1 ≤ n) :
    relativedeltaAddMonths start n = _add_months start n := by
  obtain ⟨h1, h2, _, _⟩ := hs
  cases start with
  | mk y m d =>
    simp only at h1 h2
    simp only [relativedeltaAddMonths, _add_months, Date.mk.injEq]
    by_cases hc : 12 < m + (n % 12).toNat
    · simp only [hc, if_true]
      have hy : y + n / 12 + 1 = y + ((m : Int) - 1 + n) / 12 := by omega
      have hm : m + (n % 12).toNat - 12 =
          (((m : Int) - 1 + n) % 12).toNat + 1 := by omega
      refine ⟨hy, hm, ?_⟩
      rw [hy, hm, Nat.min_comm]
    · simp only [hc, if_false]
      have hy : y + n / 12 = y + ((m : Int) - 1 + n) / 12 := by omega
      have hm : m + (n % 12).toNat =
          (((m : Int) - 1 + n) % 12).toNat + 1 := by omega
      refine ⟨hy, hm, ?_⟩
      rw [hy, hm, Nat.min_comm]

theorem relativedelta_eq_add_months_witness :
    relativedeltaAddMonths ⟨2024, 1, 31⟩ 1 = _add_months ⟨2024, 1, 31⟩ 1 :=
  relativedelta_eq_add_months ⟨2024, 1, 31⟩ (by decide) 1 (by decide)

/-! ### Trainer plan validation (`src/app/blueprints/trainer/__init__.py`) -/

/-- A Python string, modelled as its list of characters (ASCII model). -/
abbrev PyStr := List Char

/-- Characters stripped by Python `str.strip()` (ASCII whitespace). -/
def pyIsSpace (c : Char) : Bool :=
  c = ' ' || c = '\t' || c = '\n' || c = '\r' || c = '\x0b' || c = '\x0c'

/-- Python `str.strip()`. -/
def pyStrip (s : PyStr) : PyStr :=
  ((s.dropWhile pyIsSpace).reverse.dropWhile pyIsSpace).reverse

/-- Python `str.lower()` (ASCII model). -/
def pyLower (s : PyStr) : PyStr := s.map Char.toLower

/-- Python `str.isdigit()` (ASCII model: non-empty, all decimal digits). -/
def pyIsdigit (s : PyStr) : Bool := !s.isEmpty && s.all Char.isDigit

/-- Decimal value of a digit string — the `int(...)` of a string that
passed `isdigit()`. -/
def decimalValue (s : PyStr) : Nat :=
  s.foldl (fun n c => 10 * n + (c.toNat - 48)) 0

/-- The digit part accepted by CPython `int(str)` after sign handling:
decimal digits with single underscores allowed only between digits. -/
def pyDigitsOk : PyStr → Bool
  | [] => false
  | [c] => c.isDigit
  | c :: '_' :: rest => c.isDigit && pyDigitsOk rest
  | c :: rest => c.isDigit && pyDigitsOk rest

/-- Value of such a digit part, ignoring underscores. -/
def pyDigitsValue (s : PyStr) : Nat :=
  s.foldl (fun n c => if c = '_' then n else 10 * n + (c.toNat - 48)) 0

/-- CPython `int(str)` on an ASCII decimal string: surrounding whitespace
stripped, an optional sign, then digits with underscores between digits;
`none` models the `ValueError` the source catches. -/
def pyInt (s : PyStr) : Option Int :=
  match pyStrip s with
  | '+' :: rest => if pyDigitsOk rest then some (pyDigitsValue rest : Int) else none
  | '-' :: rest => if pyDigitsOk rest then some (-(pyDigitsValue rest : Int)) else none
  | t => if pyDigitsOk t then some (pyDigitsValue t : Int) else none

/-- Python `str.split(",")`. -/
def splitOnComma : PyStr → List PyStr
  | [] => [[]]
  | c :: rest =>
    match splitOnComma rest with
    | [] => [[]]
    | t :: ts => if c = ',' then [] :: t :: ts else (c :: t) :: ts

/-- One submitted row of the create-plan form: the entries of
`exercises[]`, `sets[]`, `reps[]` and `schedule_days[]` paired by `zip`. -/
structure PlanRow where
  exercise_id : PyStr
  sets : PyStr
  reps : PyStr
  schedule_day : PyStr
deriving DecidableEq, Repr

/-- A `WorkoutDetail` row as `create_plan` builds it. -/
structure WorkoutDetail where
  exercise_id : Nat
  sets : Int
  reps : PyStr
  schedule_day : PyStr
deriving DecidableEq, Repr

/-- The error messages `create_plan` can flash, one constructor per
literal, with the values interpolated into the f-string as arguments:
* `addAtLeastOneExercise` — "Vui lòng thêm ít nhất một bài tập."
* `fillAllFields` — "Vui lòng điền đầy đủ thông tin cho mỗi bài tập."
* `exerciseNotFound` — "Không tìm thấy bài tập."
* `setsNotANumber` — "Số hiệp phải là số hợp lệ."
* `tooManyTrainingDays` — "Lịch tập vượt quá … ngày tập tối đa mỗi tuần.
  Bạn đã chọn … ngày.", carrying the configured maximum and the observed
  distinct-day count that the f-string embeds. -/
inductive PlanError where
  | addAtLeastOneExercise
  | fillAllFields
  | exerciseNotFound
  | setsNotANumber
  | tooManyTrainingDays (maxDays : Int) (chosen : Nat)
deriving DecidableEq, Repr

/-- The normalised day tokens of a row's `schedule_day` field, in order:
split on commas, each token stripped and lowercased, empty tokens dropped —
exactly the values the loop adds to `unique_days`. -/
def rowDays (schedule_day : PyStr) : List PyStr :=
  ((splitOnComma schedule_day).map (fun d => pyLower (pyStrip d))).filter
    (fun d => !d.isEmpty)

/-- One iteration of the `create_plan` row loop: the raw-field presence
check, the `isdigit`-guarded exercise lookup (`exerciseIds` being the ids
present in the `Exercise` table), and the `int(sets_value)` parse, in
source order; a failing check records its message and continues with the
next row, a passing row produces the appended `WorkoutDetail`. -/
def rowOutcome (exerciseIds : List Nat) (row : PlanRow) :
    PlanError ⊕ WorkoutDetail :=
  if row.exercise_id.isEmpty || row.sets.isEmpty || row.reps.isEmpty ||
      row.schedule_day.isEmpty then
    .inl .fillAllFields
  else if !(pyIsdigit row.exercise_id &&
      exerciseIds.contains (decimalValue row.exercise_id)) then
    .inl .exerciseNotFound
  else
    match pyInt row.sets with
    | none => .inl .setsNotANumber
    | some sets_int =>
      .inr ⟨decimalValue row.exercise_id, sets_int, pyStrip row.reps,
        pyStrip row.schedule_day⟩

/-- The whole row loop of `create_plan`: the accumulated row-level error
messages (in order), the `WorkoutDetail`s of the valid rows (in order), and
the `unique_days` set of normalised day tokens of the valid rows. -/
def processRows (exerciseIds : List Nat) :
    List PlanRow → List PlanError × List WorkoutDetail × Finset PyStr
  | [] => ([], [], ∅)
  | row :: rest =>
    let r := processRows exerciseIds rest
    match rowOutcome exerciseIds row with
    | .inl e => (e :: r.1, r.2.1, r.2.2)
    | .inr d => (r.1, d :: r.2.1, (rowDays row.schedule_day).toFinset ∪ r.2.2)

/-- Method `SystemConfig.get_config` from `src/app/models/__init__.py`: the stored
value of `key` when a config row with that key exists, else the supplied
default. -/
def get_config (config : List (PyStr × PyStr)) (key dflt : PyStr) : PyStr :=
  match config.find? (fun p => decide (p.1 = key)) with
  | some p => p.2
  | none => dflt

/-- The cap `create_plan` uses:
`int(SystemConfig.get_config("max_training_days", "6"))`, falling back to
`6` when the stored string does not parse as an integer. -/
def maxTrainingDays (config : List (PyStr × PyStr)) : Int :=
  match pyInt (get_config config "max_training_days".data "6".data) with
  | some n => n
  | none => 6

/-- Pairing of the four parallel form lists by Python `zip`, which
truncates to the shortest list. -/
def zipRows (exercise_ids sets_list reps_list schedule_days : List PyStr) :
    List PlanRow :=
  (exercise_ids.zip (sets_list.zip (reps_list.zip schedule_days))).map
    (fun x => ⟨x.1, x.2.1, x.2.2.1, x.2.2.2⟩)

/-- Outcome of a `create_plan` POST: either the flashed error messages with
nothing persisted (the handler re-renders the form without touching the
session), or the single commit persisting the plan with its full
`WorkoutDetail` list. -/
inductive PlanResult where
  | rejected (errors : List PlanError)
  | accepted (details : List WorkoutDetail)
deriving DecidableEq, Repr

/-- The `create_plan` handler of `src/app/blueprints/trainer/__init__.py`
on a POST: the initial `if not exercise_ids` check, the row loop, the
configured day cap, the `len(unique_days) > max_training_days` check, and
the final accept/reject decision including the
`if not details and not errors` fallback message. -/
def create_plan (exerciseIds : List Nat) (config : List (PyStr × PyStr))
    (exercise_ids sets_list reps_list schedule_days : List PyStr) :
    PlanResult :=
  let errors0 : List PlanError :=
    if exercise_ids.isEmpty then [.addAtLeastOneExercise] else []
  let r := processRows exerciseIds
    (zipRows exercise_ids sets_list reps_list schedule_days)
  let errors1 := errors0 ++ r.1
  let max_training_days := maxTrainingDays config
  let errors2 :=
    if max_training_days < (r.2.2.card : Int) then
      errors1 ++ [.tooManyTrainingDays max_training_days r.2.2.card]
    else errors1
  if errors2 ≠ [] ∨ r.2.1 = [] then
    .rejected (if r.2.1 = [] ∧ errors2 = [] then
      errors2 ++ [.addAtLeastOneExercise] else errors2)
  else
    .accepted r.2.1

/-- The error messages flashed for a result (none on the accepted path). -/
def errorsOf : PlanResult → List PlanError
  | .rejected es => es
  | .accepted _ => []

lemma processRows_spec (exerciseIds : List Nat) (rows : List PlanRow) :
    processRows exerciseIds rows =
      (rows.filterMap (fun row => (rowOutcome exerciseIds row).getLeft?),
       rows.filterMap (fun row => (rowOutcome exerciseIds row).getRight?),
       ((rows.filter (fun row => (rowOutcome exerciseIds row).isRight)).flatMap
          (fun row => rowDays row.schedule_day)).toFinset) := by
  induction rows with
  | nil => simp [processRows]
  | cons row rest ih =>
    simp only [processRows, ih]
    cases h : rowOutcome exerciseIds row with
    | inl e =>
      simp [h, List.filter_cons, List.filterMap_cons]
    | inr d =>
      simp [h, List.filter_cons, List.filterMap_cons, List.toFinset_append]

lemma rowErrors_no_tooMany (exerciseIds : List Nat) (rows : List PlanRow)
    (a : Int) (b : Nat) :
    PlanError.tooManyTrainingDays a b ∉ (processRows exerciseIds rows).1 := by
  induction rows with
  | nil => simp [processRows]
  | cons row rest ih =>
    simp only [processRows]
    cases h : rowOutcome exerciseIds row with
    | inl e =>
      simp only [List.mem_cons]
      rintro (he | hmem)
      · subst he
        unfold rowOutcome at h
        repeat' split at h
        all_goals simp at h
      · exact ih hmem
    | inr d => exact ih

lemma rowOutcome_isRight_iff (exerciseIds : List Nat) (row : PlanRow) :
    (rowOutcome exerciseIds row).isRight = true ↔
      (row.exercise_id ≠ [] ∧ row.sets ≠ [] ∧ row.reps ≠ [] ∧
       row.schedule_day ≠ [] ∧ pyIsdigit row.exercise_id = true ∧
       decimalValue row.exercise_id ∈ exerciseIds ∧
       (pyInt row.sets).isSome = true) := by
  unfold rowOutcome
  repeat' split
  all_goals
    simp_all [List.isEmpty_iff, Option.isSome_iff_exists]
  all_goals
    intros
    simp_all

lemma no_tooMany_in_base (exerciseIds : List Nat)
    (ids ss rs ds : List PyStr) (a : Int) (b : Nat) :
    PlanError.tooManyTrainingDays a b ∉
      ((if (ids : List PyStr).isEmpty then [PlanError.addAtLeastOneExercise]
          else []) ++ (processRows exerciseIds (zipRows ids ss rs ds)).1) := by
  simp only [List.mem_append]
  rintro (h | h)
  · split at h <;> simp_all
  · exact rowErrors_no_tooMany _ _ a b h

/-- The accept/reject tail of `create_plan`, abstracted over the already
accumulated base errors `E1` (the initial emptiness message plus the
row-level errors), the configured cap `M`, the distinct-day count `card`
and the collected details; `create_plan` is definitionally this function
applied to the loop results (`create_plan_eq_decision`). -/
def planDecision (E1 : List PlanError) (M : Int) (card : Nat)
    (details : List WorkoutDetail) : PlanResult :=
  let errors2 := if M < (card : Int) then
    E1 ++ [PlanError.tooManyTrainingDays M card] else E1
  if errors2 ≠ [] ∨ details = [] then
    .rejected (if details = [] ∧ errors2 = [] then
      errors2 ++ [PlanError.addAtLeastOneExercise] else errors2)
  else .accepted details

lemma create_plan_eq_decision (exerciseIds : List Nat)
    (config : List (PyStr × PyStr)) (ids ss rs ds : List PyStr) :
    create_plan exerciseIds config ids ss rs ds =
      planDecision
        ((if (ids : List PyStr).isEmpty then [PlanError.addAtLeastOneExercise]
            else []) ++ (processRows exerciseIds (zipRows ids ss rs ds)).1)
        (maxTrainingDays config)
        (processRows exerciseIds (zipRows ids ss rs ds)).2.2.card
        (processRows exerciseIds (zipRows ids ss rs ds)).2.1 := rfl

lemma planDecision_tooMany (E1 : List PlanError) (M : Int) (card : Nat)
    (details : List WorkoutDetail)
    (hbase : ∀ a b, PlanError.tooManyTrainingDays a b ∉ E1) :
    (M < (card : Int) →
      ∃ es, planDecision E1 M card details = .rejected es ∧
        PlanError.tooManyTrainingDays M card ∈ es) ∧
    ((card : Int) ≤ M →
      ∀ a b, PlanError.tooManyTrainingDays a b ∉
        errorsOf (planDecision E1 M card details)) ∧
    (∀ a b, PlanError.tooManyTrainingDays a b ∈
        errorsOf (planDecision E1 M card details) → a = M ∧ b = card) := by
  unfold planDecision
  by_cases hcap : M < (card : Int)
  · simp only [hcap, if_true]
    have hne : E1 ++ [PlanError.tooManyTrainingDays M card] ≠ [] := by simp
    rw [if_pos (Or.inl hne)]
    rw [if_neg (fun hc => hne hc.2)]
    refine ⟨fun _ => ⟨_, rfl, by simp⟩, fun hle => absurd hcap (by omega), ?_⟩
    intro a b hmem
    simp only [errorsOf, List.mem_append, List.mem_singleton] at hmem
    rcases hmem with h | h
    · exact absurd h (hbase a b)
    · simpa using h
  · simp only [hcap, if_false]
    refine ⟨fun hc => hc.elim, ?_, ?_⟩
    · intro _ a b
      split
      · split
        · simp only [errorsOf, List.mem_append, List.mem_singleton]
          rintro (h | h)
          · exact hbase a b h
          · exact PlanError.noConfusion h
        · exact hbase a b
      · simp [errorsOf]
    · intro a b
      split
      · split
        · simp only [errorsOf, List.mem_append, List.mem_singleton]
          rintro (h | h)
          · exact absurd h (hbase a b)
          · exact absurd h (by simp)
        · intro h
          exact absurd h (hbase a b)
      · simp [errorsOf]

/-- C2: the plan is rejected with the `tooManyTrainingDays` message — which
carries both the configured maximum and the observed distinct-day count —
exactly when the number of distinct normalised day tokens of the valid rows
strictly exceeds the configured cap; in particular a plan using exactly
`max_training_days` distinct days produces no such error. -/
theorem day_cap_rule (exerciseIds : List Nat) (config : List (PyStr × PyStr))
    (ids ss rs ds : List PyStr) :
    (maxTrainingDays config <
        ((processRows exerciseIds (zipRows ids ss rs ds)).2.2.card : Int) →
      ∃ es, create_plan exerciseIds config ids ss rs ds = .rejected es ∧
        PlanError.tooManyTrainingDays (maxTrainingDays config)
          (processRows exerciseIds (zipRows ids ss rs ds)).2.2.card ∈ es) ∧
    (((processRows exerciseIds (zipRows ids ss rs ds)).2.2.card : Int) ≤
        maxTrainingDays config →
      ∀ a b, PlanError.tooManyTrainingDays a b ∉
        errorsOf (create_plan exerciseIds config ids ss rs ds)) ∧
    (∀ a b, PlanError.tooManyTrainingDays a b ∈
        errorsOf (create_plan exerciseIds config ids ss rs ds) →
      a = maxTrainingDays config ∧
        b = (processRows exerciseIds (zipRows ids ss rs ds)).2.2.card) := by
  rw [create_plan_eq_decision]
  exact planDecision_tooMany _ _ _ _
    (fun a b => no_tooMany_in_base exerciseIds ids ss rs ds a b)

theorem day_cap_rule_witness :
    ∃ es, create_plan [1] []
        ["1".data] ["3".data] ["10".data]
        ["mon,tue,wed,thu,fri,sat,sun".data] = .rejected es ∧
      PlanError.tooManyTrainingDays 6 7 ∈ es :=
  (day_cap_rule [1] [] ["1".data] ["3".data] ["10".data]
    ["mon,tue,wed,thu,fri,sat,sun".data]).1 (by decide)

/-- C3 counterexample: a row whose set-count field is `"0"` (not a positive
integer) and whose day field `" ,"` is raw-non-empty but yields no
non-empty day token after normalisation is nevertheless treated as a valid
row by `create_plan` — no row-level error is recorded and the plan is
accepted with that row persisted (contributing set count `0`), while the
claim requires such a row to be invalid. -/
theorem row_validity_counterexample :
    create_plan [1] [] ["1".data] ["0".data] ["10".data] [" ,".data] =
      .accepted [⟨1, 0, "10".data, ",".data⟩] ∧
    pyInt "0".data = some 0 ∧
    rowDays " ,".data = [] := by decide

/-- C3 (amended): a row is valid if and only if its four raw fields are
non-empty, its exercise reference resolves (`isdigit` id found in the
exercise table), and its set-count field parses as an integer — positivity
of the set count is not checked and the day field only needs to be raw
non-empty, not to survive normalisation.  Each invalid row is recorded as
exactly one row-level error in submission order (so errors accumulate and
evaluation continues), and only valid rows contribute day tokens to the
distinct-day set. -/
theorem row_validity_amended (exerciseIds : List Nat) (rows : List PlanRow) :
    (∀ row : PlanRow, (rowOutcome exerciseIds row).isRight = true ↔
      (row.exercise_id ≠ [] ∧ row.sets ≠ [] ∧ row.reps ≠ [] ∧
       row.schedule_day ≠ [] ∧ pyIsdigit row.exercise_id = true ∧
       decimalValue row.exercise_id ∈ exerciseIds ∧
       (pyInt row.sets).isSome = true)) ∧
    (processRows exerciseIds rows).1 =
      rows.filterMap (fun row => (rowOutcome exerciseIds row).getLeft?) ∧
    (processRows exerciseIds rows).2.2 =
      ((rows.filter (fun row => (rowOutcome exerciseIds row).isRight)).flatMap
        (fun row => rowDays row.schedule_day)).toFinset := by
  refine ⟨fun row => rowOutcome_isRight_iff exerciseIds row, ?_, ?_⟩
  · rw [processRows_spec]
  · rw [processRows_spec]

theorem row_validity_amended_witness :
    (rowOutcome [1] ⟨"1".data, "0".data, "10".data, " ,".data⟩).isRight = true :=
  ((row_validity_amended [1] []).1
    ⟨"1".data, "0".data, "10".data, " ,".data⟩).mpr (by decide)

lemma planDecision_no_details (E1 : List PlanError) (M : Int) (card : Nat) :
    ∃ es, planDecision E1 M card [] = .rejected es ∧ es ≠ [] ∧
      ((E1 = [] ∨ PlanError.addAtLeastOneExercise ∈ E1) → (card : Int) ≤ M →
        PlanError.addAtLeastOneExercise ∈ es) := by
  unfold planDecision
  by_cases hcap : M < (card : Int)
  · simp only [hcap, if_true]
    split
    · split
      · exact ⟨_, rfl, by simp, fun _ hle => absurd hcap (by omega)⟩
      · exact ⟨_, rfl, by simp, fun _ hle => absurd hcap (by omega)⟩
    · rename_i hcond
      exact absurd (Or.inr (by trivial)) hcond
  · simp only [hcap, if_false]
    split
    · split
      · exact ⟨_, rfl, by simp, fun _ _ => by simp⟩
      · rename_i hcond2
        have hE : E1 ≠ [] := by
          intro hc
          exact hcond2 ⟨by trivial, hc⟩
        refine ⟨_, rfl, hE, ?_⟩
        rintro (h | h) _
        · exact absurd h hE
        · exact h
    · rename_i hcond
      exact absurd (Or.inr (by trivial)) hcond

/-- C8 counterexample: a submission whose only row is invalid (empty sets
field) is rejected, but with the row-level `fillAllFields` error only — the
`EmptyPlan` message (`addAtLeastOneExercise`) is not among the flashed
errors, while the claim requires every zero-valid-row plan to be rejected
with `EmptyPlan`. -/
theorem empty_plan_counterexample :
    create_plan [1] [] ["1".data] [[]] ["10".data] ["mon".data] =
      .rejected [.fillAllFields] ∧
    PlanError.addAtLeastOneExercise ∉
      errorsOf (create_plan [1] [] ["1".data] [[]] ["10".data] ["mon".data]) := by
  decide

/-- C8 (amended): a plan with zero valid rows is always rejected with a
non-empty error list even when the day count is within the cap, and the
`EmptyPlan` message (`addAtLeastOneExercise`) is guaranteed among the
errors when no row-level error was recorded and the day-count check passes;
a plan rejected for row-level errors need not carry the `EmptyPlan`
message. -/
theorem empty_plan_amended (exerciseIds : List Nat)
    (config : List (PyStr × PyStr)) (ids ss rs ds : List PyStr)
    (hnov : (processRows exerciseIds (zipRows ids ss rs ds)).2.1 = []) :
    ∃ es, create_plan exerciseIds config ids ss rs ds = .rejected es ∧
      es ≠ [] ∧
      ((processRows exerciseIds (zipRows ids ss rs ds)).1 = [] ∧
        ((processRows exerciseIds (zipRows ids ss rs ds)).2.2.card : Int) ≤
          maxTrainingDays config →
        PlanError.addAtLeastOneExercise ∈ es) := by
  rw [create_plan_eq_decision, hnov]
  obtain ⟨es, heq, hne, hmem⟩ := planDecision_no_details
    ((if (ids : List PyStr).isEmpty then [PlanError.addAtLeastOneExercise]
        else []) ++ (processRows exerciseIds (zipRows ids ss rs ds)).1)
    (maxTrainingDays config)
    (processRows exerciseIds (zipRows ids ss rs ds)).2.2.card
  refine ⟨es, heq, hne, ?_⟩
  rintro ⟨hre, hcap⟩
  refine hmem ?_ hcap
  rw [hre, List.append_nil]
  split
  · exact Or.inr (by simp)
  · exact Or.inl rfl

theorem empty_plan_amended_witness :
    ∃ es, create_plan ([] : List Nat) [] [] [] [] [] = .rejected es ∧
      es ≠ [] ∧
      ((processRows ([] : List Nat) (zipRows [] [] [] [])).1 = [] ∧
        ((processRows ([] : List Nat) (zipRows [] [] [] [])).2.2.card : Int) ≤
          maxTrainingDays [] →
        PlanError.addAtLeastOneExercise ∈ es) :=
  empty_plan_amended [] [] [] [] [] [] (by decide)

lemma planDecision_atomic (E1 : List PlanError) (M : Int) (card : Nat)
    (details : List WorkoutDetail) :
    (∀ out, planDecision E1 M card details = .accepted out →
      out = details ∧ E1 = [] ∧ (card : Int) ≤ M ∧ details ≠ []) ∧
    ((E1 ≠ [] ∨ M < (card : Int) ∨ details = []) →
      ∃ es, planDecision E1 M card details = .rejected es) := by
  unfold planDecision
  by_cases hcap : M < (card : Int)
  · simp only [hcap, if_true]
    have hne : E1 ++ [PlanError.tooManyTrainingDays M card] ≠ [] := by simp
    rw [if_pos (Or.inl hne)]
    exact ⟨fun out h => PlanResult.noConfusion h, fun _ => ⟨_, rfl⟩⟩
  · simp only [hcap, if_false]
    by_cases hrej : E1 ≠ [] ∨ details = []
    · rw [if_pos hrej]
      exact ⟨fun out h => PlanResult.noConfusion h, fun _ => ⟨_, rfl⟩⟩
    · rw [if_neg hrej]
      push_neg at hrej
      refine ⟨?_, ?_⟩
      · intro out h
        cases h
        exact ⟨rfl, hrej.1, by omega, hrej.2⟩
      · rintro (h | h | h)
        · exact absurd h (by simpa using hrej.1)
        · exact h.elim
        · exact absurd h hrej.2

/-- C9: plan acceptance is all-or-nothing.  If the submission is accepted,
the persisted detail list is exactly the loop's full detail list, every
zipped row was valid, there were no row-level errors, the submitted
exercise list was non-empty and the day cap was respected; conversely any
violation — a row-level error, a day-count violation, or no valid row —
yields a rejection, which persists nothing (the `rejected` outcome carries
only the flashed messages). -/
theorem plan_atomicity (exerciseIds : List Nat)
    (config : List (PyStr × PyStr)) (ids ss rs ds : List PyStr) :
    (∀ out, create_plan exerciseIds config ids ss rs ds = .accepted out →
      out = (processRows exerciseIds (zipRows ids ss rs ds)).2.1 ∧
      (processRows exerciseIds (zipRows ids ss rs ds)).1 = [] ∧
      ids ≠ [] ∧
      ((processRows exerciseIds (zipRows ids ss rs ds)).2.2.card : Int) ≤
        maxTrainingDays config ∧
      (∀ row ∈ zipRows ids ss rs ds,
        (rowOutcome exerciseIds row).isRight = true)) ∧
    ((processRows exerciseIds (zipRows ids ss rs ds)).1 ≠ [] ∨
      maxTrainingDays config <
        ((processRows exerciseIds (zipRows ids ss rs ds)).2.2.card : Int) ∨
      (processRows exerciseIds (zipRows ids ss rs ds)).2.1 = [] →
      ∃ es, create_plan exerciseIds config ids ss rs ds = .rejected es) := by
  rw [create_plan_eq_decision]
  obtain ⟨hacc, hrej⟩ := planDecision_atomic
    ((if (ids : List PyStr).isEmpty then [PlanError.addAtLeastOneExercise]
        else []) ++ (processRows exerciseIds (zipRows ids ss rs ds)).1)
    (maxTrainingDays config)
    (processRows exerciseIds (zipRows ids ss rs ds)).2.2.card
    (processRows exerciseIds (zipRows ids ss rs ds)).2.1
  constructor
  · intro out h
    obtain ⟨hout, hE1, hcap, -⟩ := hacc out h
    rw [List.append_eq_nil] at hE1
    obtain ⟨h0, hrow⟩ := hE1
    have hids : ids ≠ [] := by
      intro hc
      subst hc
      simp at h0
    refine ⟨hout, hrow, hids, hcap, ?_⟩
    intro row hrowmem
    rw [processRows_spec] at hrow
    simp only at hrow
    rw [List.filterMap_eq_nil_iff] at hrow
    have := hrow row hrowmem
    rwa [Sum.getLeft?_eq_none_iff] at this
  · intro h
    refine hrej ?_
    rcases h with h | h | h
    · exact Or.inl (by
        intro hc
        rw [List.append_eq_nil] at hc
        exact h hc.2)
    · exact Or.inr (Or.inl h)
    · exact Or.inr (Or.inr h)

theorem plan_atomicity_witness :
    [(⟨1, 3, "10".data, "mon".data⟩ : WorkoutDetail)] =
        (processRows [1] (zipRows ["1".data] ["3".data] ["10".data]
          ["mon".data])).2.1 ∧
      (processRows [1] (zipRows ["1".data] ["3".data] ["10".data]
        ["mon".data])).1 = [] ∧
      (["1".data] : List PyStr) ≠ [] ∧
      ((processRows [1] (zipRows ["1".data] ["3".data] ["10".data]
          ["mon".data])).2.2.card : Int) ≤ maxTrainingDays [] ∧
      (∀ row ∈ zipRows ["1".data] ["3".data] ["10".data] ["mon".data],
        (rowOutcome [1] row).isRight = true) :=
  (plan_atomicity [1] [] ["1".data] ["3".data] ["10".data] ["mon".data]).1
    [⟨1, 3, "10".data, "mon".data⟩] (by decide)

/-- C10: the cap used by plan validation is total in the configuration —
the stored `max_training_days` value parsed as an integer when the key
exists and its string parses, and the default `6` both when the key is
absent and when the stored string does not parse as an integer. -/
theorem config_cap_total (config : List (PyStr × PyStr)) :
    (config.find? (fun p => decide (p.1 = "max_training_days".data)) = none →
      maxTrainingDays config = 6) ∧
    (∀ k v, config.find?
        (fun p => decide (p.1 = "max_training_days".data)) = some (k, v) →
      (∀ n, pyInt v = some n → maxTrainingDays config = n) ∧
      (pyInt v = none → maxTrainingDays config = 6)) := by
  constructor
  · intro h
    unfold maxTrainingDays get_config
    rw [h]
    decide
  · intro k v h
    unfold maxTrainingDays get_config
    rw [h]
    constructor
    · intro n hn
      simp only [hn]
    · intro hn
      simp only [hn]

theorem config_cap_total_witness :
    maxTrainingDays [("max_training_days".data, "abc".data)] = 6 :=
  ((config_cap_total [("max_training_days".data, "abc".data)]).2
    "max_training_days".data "abc".data (by decide)).2 (by decide)

/-! ### Admin revenue aggregation (`src/app/blueprints/admin/__init__.py`) -/

/-- An `Invoice` row as the revenue query reads it: its `amount` and the
`year` and `month` fields that `extract` pulls out of its `created_at`
timestamp (the day and time of day play no role in the aggregation;
amounts, stored as Python floats, are modelled as rationals). -/
structure InvoiceRow where
  amount : ℚ
  year : Int
  month : Nat
deriving DecidableEq

/-- The SQL aggregate in `admin.revenue_data`: among the invoices of the
target year (the `extract("year", created_at) == current_year` filter), one
`(month, total)` group per distinct month present, ordered by month
ascending (`group_by` and `order_by` on the extracted month), the total
being the sum of the group's amounts. -/
def revenueGroups (invoices : List InvoiceRow) (current_year : Int) :
    List (Nat × ℚ) :=
  let yearRows := invoices.filter (fun inv => decide (inv.year = current_year))
  let months := List.insertionSort (fun a b => a ≤ b)
    ((yearRows.map (fun inv => inv.month)).dedup)
  months.map (fun m =>
    (m, ((yearRows.filter (fun inv => decide (inv.month = m))).map
      (fun inv => inv.amount)).sum))

/-- Handler `admin.revenue_data`: `monthly_totals = [0] * 12`, then for each group
row `monthly_totals[int(row.month) - 1] = float(row.total)` (the index
arithmetic is meaningful for the month values 1 to 12 that a real
timestamp's extracted month takes). -/
def revenue_data (invoices : List InvoiceRow) (current_year : Int) :
    List ℚ :=
  (revenueGroups invoices current_year).foldl
    (fun acc g => acc.set (g.1 - 1) g.2) (List.replicate 12 0)

lemma foldl_set_length (l : List (Nat × ℚ)) (L : List ℚ) :
    (l.foldl (fun acc g => acc.set (g.1 - 1) g.2) L).length = L.length := by
  induction l generalizing L with
  | nil => rfl
  | cons g rest ih => simp [List.foldl_cons, ih, List.length_set]

lemma foldl_set_months (months : List Nat) (f : Nat → ℚ) (L : List ℚ)
    (hL : L.length = 12) (hb : ∀ m ∈ months, 1 ≤ m ∧ m ≤ 12)
    (i : Nat) (hi : i < 12) :
    ((months.map (fun m => (m, f m))).foldl
        (fun acc g => acc.set (g.1 - 1) g.2) L)[i]? =
      if (i + 1) ∈ months then some (f (i + 1)) else L[i]? := by
  induction months generalizing L with
  | nil => simp
  | cons m rest ih =>
    simp only [List.map_cons, List.foldl_cons]
    have hm := hb m (by simp)
    have hrest : ∀ x ∈ rest, 1 ≤ x ∧ x ≤ 12 := fun x hx => hb x (by simp [hx])
    rw [ih (L.set (m - 1) (f m)) (by rw [List.length_set, hL]) hrest]
    by_cases hmem : (i + 1) ∈ rest
    · simp [hmem]
    · simp only [hmem, if_false]
      rw [List.getElem?_set]
      by_cases heq : i + 1 = m
      · have hidx : m - 1 = i := by omega
        have hlt : i < L.length := by omega
        simp [hidx, hlt, List.mem_cons, heq.symm]
      · have hidx : ¬ (m - 1 = i) := by omega
        have hcond : ¬ (i + 1 = m ∨ i + 1 ∈ rest) := by
          rintro (h | h)
          · exact heq h
          · exact hmem h
        rw [if_neg hidx]
        simp only [List.mem_cons]
        rw [if_neg hcond]

/-- C4: the revenue aggregation produces exactly 12 totals, index 0 being
January through index 11 December; the entry for month `m` is the sum of
the amounts of exactly the invoices whose timestamp falls in month `m` of
the target year; rows outside the target year contribute to no entry, a
month with no contributing rows totals zero (so zero input rows yield 12
zeros), and the output does not depend on the input order. -/
theorem revenue_aggregation (invoices : List InvoiceRow) (year : Int)
    (hval : ∀ inv ∈ invoices, 1 ≤ inv.month ∧ inv.month ≤ 12) :
    (revenue_data invoices year).length = 12 ∧
    (∀ m, 1 ≤ m → m ≤ 12 →
      (revenue_data invoices year)[m - 1]? =
        some (((invoices.filter (fun inv =>
            decide (inv.year = year) && decide (inv.month = m))).map
          (fun inv => inv.amount)).sum)) ∧
    (∀ invoices2, invoices.Perm invoices2 →
      revenue_data invoices2 year = revenue_data invoices year) := by
  have entry : ∀ (invs : List InvoiceRow),
      (∀ inv ∈ invs, 1 ≤ inv.month ∧ inv.month ≤ 12) →
      ∀ m, 1 ≤ m → m ≤ 12 →
      (revenue_data invs year)[m - 1]? =
        some (((invs.filter (fun inv =>
            decide (inv.year = year) && decide (inv.month = m))).map
          (fun inv => inv.amount)).sum) := by
    intro invs hv m hm1 hm2
    unfold revenue_data revenueGroups
    have hb : ∀ x ∈ List.insertionSort (fun a b => a ≤ b)
          ((invs.filter (fun inv => decide (inv.year = year))).map
            (fun inv => inv.month)).dedup,
        1 ≤ x ∧ x ≤ 12 := by
      intro x hx
      rw [List.mem_insertionSort, List.mem_dedup, List.mem_map] at hx
      obtain ⟨inv, hinv, hxm⟩ := hx
      subst hxm
      exact hv inv (List.mem_of_mem_filter hinv)
    rw [foldl_set_months _ _ _ (by simp) hb (m - 1) (by omega)]
    have hm : m - 1 + 1 = m := by omega
    rw [hm]
    have hsum : ((invs.filter (fun inv => decide (inv.year = year))).filter
          (fun inv => decide (inv.month = m))).map (fun inv => inv.amount) =
        (invs.filter (fun inv =>
          decide (inv.year = year) && decide (inv.month = m))).map
            (fun inv => inv.amount) := by
      rw [List.filter_filter]
      congr 1
      exact List.filter_congr (fun inv _ => by rw [Bool.and_comm])
    by_cases hmem : m ∈ List.insertionSort (fun a b => a ≤ b)
        ((invs.filter (fun inv => decide (inv.year = year))).map
          (fun inv => inv.month)).dedup
    · rw [if_pos hmem, hsum]
    · rw [if_neg hmem]
      have hempty : invs.filter (fun inv =>
          decide (inv.year = year) && decide (inv.month = m)) = [] := by
        rw [List.eq_nil_iff_forall_not_mem]
        intro inv hinv
        rw [List.mem_filter, Bool.and_eq_true, decide_eq_true_eq,
          decide_eq_true_eq] at hinv
        refine hmem ?_
        rw [List.mem_insertionSort, List.mem_dedup, List.mem_map]
        exact ⟨inv, by
          rw [List.mem_filter, decide_eq_true_eq]
          exact ⟨hinv.1, hinv.2.1⟩, hinv.2.2⟩
      rw [hempty]
      rw [List.getElem?_replicate, if_pos (by omega)]
      simp
  refine ⟨?_, entry invoices hval, ?_⟩
  · unfold revenue_data
    rw [foldl_set_length]
    simp
  · intro invoices2 hperm
    have hval2 : ∀ inv ∈ invoices2, 1 ≤ inv.month ∧ inv.month ≤ 12 :=
      fun inv hinv => hval inv (hperm.mem_iff.mpr hinv)
    apply List.ext_getElem?
    intro i
    by_cases hi : i < 12
    · have h1 := entry invoices hval (i + 1) (by omega) (by omega)
      have h2 := entry invoices2 hval2 (i + 1) (by omega) (by omega)
      simp only [Nat.add_sub_cancel] at h1 h2
      rw [h1, h2]
      congr 1
      exact ((hperm.symm.filter _).map _).sum_eq
    · rw [List.getElem?_eq_none, List.getElem?_eq_none]
      · unfold revenue_data
        rw [foldl_set_length]
        simp
        omega
      · unfold revenue_data
        rw [foldl_set_length]
        simp
        omega

theorem revenue_aggregation_witness :
    (revenue_data [⟨5, 2024, 3⟩, ⟨7, 2023, 3⟩] 2024)[3 - 1]? =
      some ((([⟨5, 2024, 3⟩, ⟨7, 2023, 3⟩] : List InvoiceRow).filter
          (fun inv => decide (inv.year = 2024) && decide (inv.month = 3))).map
        (fun inv => inv.amount)).sum :=
  (revenue_aggregation [⟨5, 2024, 3⟩, ⟨7, 2023, 3⟩] 2024
    (by decide)).2.1 3 (by decide) (by decide)

end CodeGym
